import Mathlib

/-!
Shallow embedding of the roster-extraction core of the repository
(`src/data_reader.py`): the `Person` data model, role standardization,
merge / deduplication / similarity-merge, validation, URL classification,
categorization, and the `process_content` pipeline.  External capabilities
(the spaCy sentence segmenter and named-entity recognizer, and the Python
regex engine's match enumeration) are parameterized as oracle functions,
exactly as the spec describes them (pluggable Name Locator, pattern
families evaluated by a regex engine).  Python strings are modelled as
Lean `String`; Python `dict` contact maps as insertion-ordered association
lists with `dict.update` semantics.
-/

namespace OfficerPipeline

/-- Python `str.lower()` (ASCII case folding, which is all the fixed
keyword tables need). -/
def lowerStr (s : String) : String := String.mk (s.data.map Char.toLower)

/-- Python `str.strip()` on a character list: drop leading and trailing
whitespace. -/
def stripChars (l : List Char) : List Char :=
  ((l.dropWhile Char.isWhitespace).reverse.dropWhile Char.isWhitespace).reverse

/-- Python `str.strip()`. -/
def stripStr (s : String) : String := String.mk (stripChars s.data)

/-- Auxiliary for the substring test: does the second list start with the
first one? -/
def startsWithChars : List Char → List Char → Bool
  | [], _ => true
  | _ :: _, [] => false
  | a :: as, b :: bs => a == b && startsWithChars as bs

/-- Python `small in big` on strings: contiguous substring occurrence. -/
def subChars : List Char → List Char → Bool
  | s, [] => s.isEmpty
  | s, b :: bs => startsWithChars s (b :: bs) || subChars s bs

/-- Python `small in big` for `String`. -/
def containsSub (big small : String) : Bool := subChars small.data big.data

/-- Contact maps: Python `dict[str, str]`, insertion ordered. -/
abbrev ContactMap := List (String × String)

/-- Python `m.get(k)` / `m[k]`: value of the first entry with key `k`. -/
def lookupKey (m : ContactMap) (k : String) : Option String :=
  match m with
  | [] => none
  | kv :: rest => if kv.1 = k then some kv.2 else lookupKey rest k

/-- Python `k in m` for a dict. -/
def hasKey : ContactMap → String → Bool
  | [], _ => false
  | kv :: rest, k => kv.1 == k || hasKey rest k

/-- Python `m[k] = v`: overwrite the value in place if the key exists
(keeping its position), else append the new entry at the end. -/
def setKey : ContactMap → String → String → ContactMap
  | [], k, v => [(k, v)]
  | kv :: rest, k, v => if kv.1 = k then (k, v) :: rest else kv :: setKey rest k v

/-- Python `m.update(other)`: assign every entry of `other`, in order. -/
def updateMap (m other : ContactMap) : ContactMap :=
  other.foldl (fun acc kv => setKey acc kv.1 kv.2) m

/-- Python truthiness of an optional dict: `None` and `{}` are falsy. -/
def truthyMap : Option ContactMap → Bool
  | none => false
  | some m => !m.isEmpty

/-- The `Person` dataclass of `src/data_reader.py`. -/
structure Person where
  name : String
  role : String
  contact_info : Option ContactMap
deriving DecidableEq

/-- The `DataReader.EXECUTIVE_ROLES` table (a set; only membership is used). -/
def EXECUTIVE_ROLES : List String :=
  ["Chief Executive Officer", "Chief Operating Officer", "President",
   "Vice President", "Corporate Secretary", "Chief Financial Officer"]

/-- The `DataReader.BOARD_ROLES` table. -/
def BOARD_ROLES : List String := ["Director", "Chairman", "Board Member"]

/-- The method `Person.merge_with` (mutation modelled as returning the updated
receiver).  Everything is guarded by `self.name == other.name`; role
precedence favours an executive role over a board role; contact maps are
combined with `dict.update`, and Python truthiness governs the
`if other.contact_info:` / `if not self.contact_info:` tests. -/
def merge_with (self other : Person) : Person :=
  if self.name = other.name then
    let role :=
      if self.role ≠ other.role then
        if self.role ∈ EXECUTIVE_ROLES ∧ other.role ∈ BOARD_ROLES then
          self.role
        else if other.role ∈ EXECUTIVE_ROLES ∧ self.role ∈ BOARD_ROLES then
          other.role
        else self.role
      else self.role
    let contact :=
      if truthyMap other.contact_info then
        let base := if truthyMap self.contact_info then self.contact_info.getD [] else []
        some (updateMap base (other.contact_info.getD []))
      else self.contact_info
    Person.mk self.name role contact
  else self

/-- Python `Person.__eq__`: equality on `(name, role)` only; used by the
`person not in board_members` membership test. -/
def personEq (a b : Person) : Bool := a.name == b.name && a.role == b.role

/-- One iteration of the `DataReader.deduplicate_people` loop over the
insertion-ordered dict keyed by the exact `person.name`. -/
def dedupStep (acc : List Person) (p : Person) : List Person :=
  if acc.any (fun q => q.name == p.name) then
    acc.map (fun q => if q.name == p.name then merge_with q p else q)
  else acc ++ [p]

/-- The method `DataReader.deduplicate_people`. -/
def deduplicate_people (people : List Person) : List Person :=
  people.foldl dedupStep []

/-- The method `Person.standardize_role`: the ordered `role_mapping` table applied to
the stripped role with anchored patterns (`re.match` of `^...$`).  The
all-letter case-insensitive patterns (`[Cc][Ee][Oo]` and so on) are the
exact case-folded comparisons; the patterns that vary only their first
letter are the two literal spellings.  Roles matching no pattern keep the
original (unstripped) text. -/
def standardize_role (p : Person) : Person :=
  let r := stripStr p.role
  let role :=
    if lowerStr r = "ceo" then "Chief Executive Officer"
    else if lowerStr r = "cfo" then "Chief Financial Officer"
    else if lowerStr r = "coo" then "Chief Operating Officer"
    else if lowerStr r = "vp" then "Vice President"
    else if lowerStr r = "ir" then "Investor Relations"
    else if r = "Director" ∨ r = "director" then "Director"
    else if r = "President" ∨ r = "president" then "President"
    else if r = "Chairman" ∨ r = "chairman" then "Chairman"
    else if r = "Chairperson" ∨ r = "chairperson" then "Chairman"
    else if r = "Treasurer" ∨ r = "treasurer" then "Treasurer"
    else if r = "Secretary" ∨ r = "secretary" then "Secretary"
    else p.role
  Person.mk p.name role p.contact_info

/-- A spaCy entity as consumed by `extract_people_from_section`:
`ent.label_`, `ent.text`, `ent.start_char`. -/
structure Ent where
  label : String
  text : String
  start_char : Nat
deriving DecidableEq

/-- A regex match of one of the role patterns: `m.start()` and
`m.group()`.  Lists of these are given in the source's enumeration order
(outer loop over `role_patterns`, inner loop over `re.finditer`). -/
structure RoleMatch where
  start : Nat
  text : String
deriving DecidableEq

/-- Python `abs(m.start() - ent.start_char)`. -/
def absDist (a b : Nat) : Nat := (Int.natAbs ((a : Int) - (b : Int)))

/-- One iteration of the closest-role loop: state is `None` for the
initial `role = None; best_distance = inf`, else the current
`(best_distance, role)`. -/
def roleStep (entStart : Nat) (st : Option (Nat × String)) (m : RoleMatch) :
    Option (Nat × String) :=
  let distance := absDist m.start entStart
  match st with
  | none => some (distance, stripStr m.text)
  | some br => if distance < br.1 then some (distance, stripStr m.text) else some br

/-- The Role Resolver loop of `extract_people_from_section`: over all role
matches of the section (in enumeration order), keep the role text of the
strictly closest match to the entity start. -/
def pickRole (ms : List RoleMatch) (entStart : Nat) : Option String :=
  (ms.foldl (roleStep entStart) none).map (fun br => br.2)

/-- Contact assembly of `extract_people_from_section`: a fresh dict gets
an `email` and a `phone` entry from the section's first regex matches;
an empty dict becomes `None`. -/
def buildContact (emailMatch phoneMatch : Option String) : Option ContactMap :=
  let ci : ContactMap := []
  let ci := match emailMatch with
    | some e => setKey ci ("email") e
    | none => ci
  let ci := match phoneMatch with
    | some ph => setKey ci ("phone") ph
    | none => ci
  if ci.isEmpty then none else some ci

/-- The method `DataReader.extract_people_from_section`, parameterized by the
section's NER entities, its role-pattern matches (enumeration order), and
its first email/phone matches — the external spaCy and `re` capabilities.
A person is emitted only when the resolved role is truthy. -/
def extract_people_from_section (ents : List Ent) (roleMatches : List RoleMatch)
    (emailMatch phoneMatch : Option String) : List Person :=
  ents.foldl
    (fun people ent =>
      if ent.label = "PERSON" then
        match pickRole roleMatches ent.start_char with
        | some role =>
          if role ≠ "" then
            people ++ [standardize_role
              (Person.mk (stripStr ent.text) role (buildContact emailMatch phoneMatch))]
          else people
        | none => people
      else people)
    []

/-- Placeholder for out-of-range list indexing (never reached: the source
indexes only inside `range(len(people))`). -/
def defaultPerson : Person := Person.mk ("") ("") none

/-- The inner `for j in range(i+1, len(people))` loop of
`DataReader.merge_similar_people`, acting on the mutable list of people
and the `used` index set. -/
def msp_inner (arr0 : List Person) (used0 : List Nat) (i : Nat) :
    List Person × List Nat :=
  (List.range' (i + 1) (arr0.length - (i + 1))).foldl
    (fun st j =>
      let arr := st.1
      let used := st.2
      let p1 := arr.getD i defaultPerson
      let p2 := arr.getD j defaultPerson
      if p1.role = p2.role then
        let name1 := stripStr (lowerStr p1.name)
        let name2 := stripStr (lowerStr p2.name)
        if subChars name1.data name2.data || subChars name2.data name1.data then
          if name1.length < name2.length then
            (arr.set i (merge_with p1 p2), j :: used)
          else
            (arr.set j (merge_with p2 p1), j :: used)
        else st
      else st)
    (arr0, used0)

/-- The method `DataReader.merge_similar_people`: the outer `for i, p1 in
enumerate(people)` loop, skipping `used` indices and appending the
(possibly mutated) `people[i]` after each inner pass. -/
def merge_similar_people (people : List Person) : List Person :=
  ((List.range people.length).foldl
    (fun (st : List Person × List Nat × List Person) i =>
      let arr := st.1
      let used := st.2.1
      let merged := st.2.2
      if used.contains i then st
      else
        let r := msp_inner arr used i
        (r.1, r.2, merged ++ [r.1.getD i defaultPerson]))
    (people, [], [])).2.2

/-- The denylist of `DataReader.is_valid_person`. -/
def excluded_names : List String :=
  ["qualified person", "mine", "mines", "silver mine", "gold mine", "copper mine",
   "zinc mine", "ore", "ores", "mineral", "minerals", "mining", "quarry", "deposit",
   "resource", "resources", "exploration", "development", "corporation", "company",
   "inc", "llc", "limited", "group", "holdings", "press", "media", "news", "blog",
   "announcement", "report", "consultant", "advisor"]

/-- The method `DataReader.is_valid_person`. -/
def is_valid_person (p : Person) : Bool :=
  if excluded_names.any (fun kw => containsSub (lowerStr p.name) kw) then false
  else if p.name.length < 3 then false
  else true

/-- The method `DataReader.is_excluded_url`. -/
def is_excluded_url (url : String) : Bool :=
  (["press-release", "news", "blog", "announcement", "press", "update",
    "release", "media", "breaking", "newsroom", "reports", "financial-news",
    "corporate-news", "projects"]).any (fun kw => containsSub (lowerStr url) kw)

/-- The method `DataReader.is_executive_page`. -/
def is_executive_page (url : String) : Bool :=
  (["team", "management", "leadership", "executive", "officer"]).any
    (fun kw => containsSub (lowerStr url) kw)

/-- The method `DataReader.is_board_page`. -/
def is_board_page (url : String) : Bool :=
  (["board", "director", "chairman"]).any (fun kw => containsSub (lowerStr url) kw)

/-- The body of the `for person in people` loop of
`DataReader.categorize_people` (the exec-page and board-page branches
keep the source's redundant role test verbatim; the CEO special rule uses
Python `Person.__eq__` for the `not in board_members` membership test). -/
def catStep (isExecPage isBoardPage : Bool) (st : List Person × List Person)
    (person : Person) : List Person × List Person :=
  if !(is_valid_person person) then st
  else if isExecPage && !isBoardPage then
    (if person.role ∈ EXECUTIVE_ROLES then st.1 ++ [person]
     else st.1 ++ [person], st.2)
  else if isBoardPage && !isExecPage then
    (st.1,
     if person.role ∈ BOARD_ROLES then st.2 ++ [person]
     else st.2 ++ [person])
  else
    let executives :=
      if person.role ∈ EXECUTIVE_ROLES then st.1 ++ [person] else st.1
    let board1 :=
      if person.role ∈ BOARD_ROLES then st.2 ++ [person] else st.2
    let board2 :=
      if person.role ∈ EXECUTIVE_ROLES ∧ person.role = "Chief Executive Officer" then
        if !(board1.any (fun q => personEq q person)) then board1 ++ [person]
        else board1
      else board1
    (executives, board2)

/-- The method `DataReader.categorize_people`. -/
def categorize_people (people : List Person) (url : String) :
    List Person × List Person :=
  people.foldl (catStep (is_executive_page url) (is_board_page url)) ([], [])

/-- Shape of a truthy `structured_data['sections']` value, with the JSON
leaves already rendered by Python `str` (dict values in order, list items
in order, or any other value as one string). -/
inductive SectionsData where
  | dict (vals : List String)
  | list (items : List String)
  | other (s : String)
deriving DecidableEq

/-- The model `WebPageContent` as consumed by `process_content`.
`structured_sections` is `some sd` exactly when `content.structured_data`
is truthy and its `sections` value is truthy, collapsing the source's
`if content.structured_data:` / `if sections_data:` chain. -/
structure WebPageContent where
  url : String
  body_text : String
  title : Option String
  structured_sections : Option SectionsData
  source_file : String

/-- The model `ProcessedContent` (the `people` property and printing are omitted:
no claim mentions them). -/
structure ProcessedContent where
  url : String
  title : Option String
  sections : List String
  executives : List Person
  board_members : List Person
  source_file : String

/-- The external text capabilities used by `process_content`:
spaCy sentence segmentation, the combined-pattern `re.search` test of
`get_relevant_sections`, and per-section NER entities, role-pattern
matches, and first email/phone matches. -/
structure TextOracle where
  sents : String → List String
  matchesCombined : String → Bool
  ents : String → List Ent
  roleMatches : String → List RoleMatch
  emailMatch : String → Option String
  phoneMatch : String → Option String

/-- The method `DataReader.get_relevant_sections`: keep each sentence matching some
combined pattern (the per-sentence `break` only stops pattern scanning);
fall back to the whole text when nothing matched. -/
def get_relevant_sections (o : TextOracle) (text : String) : List String :=
  let sections := (o.sents text).filter o.matchesCombined
  if sections.isEmpty then [text] else sections

/-- Python `' '.join`. -/
def joinSpace : List String → String
  | [] => ""
  | x :: xs => xs.foldl (fun acc s => acc ++ " " ++ s) x

/-- The method `DataReader.process_content`: exclusion gate, structured-data text
fallback, empty-text gate, then section extraction, deduplication,
similarity merge, validation filter, and categorization. -/
def process_content (o : TextOracle) (content : WebPageContent) : ProcessedContent :=
  if is_excluded_url content.url then
    ProcessedContent.mk content.url content.title [] [] [] content.source_file
  else
    let text := content.body_text
    let text :=
      if text = "" then
        match content.structured_sections with
        | some (SectionsData.dict vals) => joinSpace vals
        | some (SectionsData.list items) => joinSpace items
        | some (SectionsData.other s) => s
        | none => text
      else text
    if text = "" then
      ProcessedContent.mk content.url content.title [] [] [] content.source_file
    else
      let sections_to_process := get_relevant_sections o text
      let all_people := sections_to_process.foldl
        (fun acc s =>
          acc ++ extract_people_from_section (o.ents s) (o.roleMatches s)
            (o.emailMatch s) (o.phoneMatch s))
        []
      let deduped_people := deduplicate_people all_people
      let merged_people := merge_similar_people deduped_people
      let filtered_people := merged_people.filter (fun p => is_valid_person p)
      let cat := categorize_people filtered_people content.url
      ProcessedContent.mk content.url content.title sections_to_process
        cat.1 cat.2 content.source_file


/-! ### Helper lemmas -/

def nodupKeys (m : ContactMap) : Prop := List.Nodup (m.map Prod.fst)

theorem hasKey_setKey (m : ContactMap) (k v k' : String) :
    hasKey (setKey m k v) k' = (hasKey m k' || (k' == k)) := by
  induction m with
  | nil =>
    show ((k == k') || hasKey [] k') = ((false : Bool) || (k' == k))
    by_cases h : k' = k
    · subst h; simp
    · rw [beq_eq_false_iff_ne.mpr (Ne.symm h), beq_eq_false_iff_ne.mpr h]
      simp [hasKey]
  | cons kv rest ih =>
    show hasKey (if kv.1 = k then (k, v) :: rest else kv :: setKey rest k v) k' = _
    by_cases h : kv.1 = k
    · rw [if_pos h]
      show ((k == k') || hasKey rest k') = (((kv.1 == k') || hasKey rest k') || (k' == k))
      rw [h]
      by_cases h' : k' = k
      · subst h'; simp
      · rw [beq_eq_false_iff_ne.mpr (Ne.symm h'), beq_eq_false_iff_ne.mpr h']
        simp
    · rw [if_neg h]
      show ((kv.1 == k') || hasKey (setKey rest k v) k') = (((kv.1 == k') || hasKey rest k') || (k' == k))
      rw [ih]
      cases kv.1 == k' <;> simp [Bool.or_assoc]

theorem hasKey_updateMap (o : ContactMap) :
    ∀ (m : ContactMap) (k : String),
      hasKey (updateMap m o) k = (hasKey m k || hasKey o k) := by
  induction o with
  | nil => intro m k; simp [updateMap, hasKey]
  | cons kv o' ih =>
    intro m k
    have step : updateMap m (kv :: o') = updateMap (setKey m kv.1 kv.2) o' := rfl
    rw [step, ih (setKey m kv.1 kv.2) k, hasKey_setKey]
    show _ = (hasKey m k || ((kv.1 == k) || hasKey o' k))
    by_cases h : k = kv.1
    · subst h; simp
    · rw [beq_eq_false_iff_ne.mpr h, beq_eq_false_iff_ne.mpr (Ne.symm h)]
      cases hasKey m k <;> simp

theorem lookup_setKey_self (m : ContactMap) (k v : String) :
    lookupKey (setKey m k v) k = some v := by
  induction m with
  | nil => simp [setKey, lookupKey]
  | cons kv rest ih =>
    show lookupKey (if kv.1 = k then (k, v) :: rest else kv :: setKey rest k v) k = some v
    by_cases h : kv.1 = k
    · rw [if_pos h]; simp [lookupKey]
    · rw [if_neg h]
      show (if kv.1 = k then some kv.2 else lookupKey (setKey rest k v) k) = some v
      rw [if_neg h]
      exact ih

theorem lookup_setKey_ne (m : ContactMap) {k k' : String} (v : String)
    (hne : k' ≠ k) : lookupKey (setKey m k v) k' = lookupKey m k' := by
  induction m with
  | nil =>
    show (if k = k' then some v else lookupKey [] k') = lookupKey [] k'
    rw [if_neg (Ne.symm hne)]
  | cons kv rest ih =>
    show lookupKey (if kv.1 = k then (k, v) :: rest else kv :: setKey rest k v) k' = _
    by_cases h : kv.1 = k
    · rw [if_pos h]
      show (if k = k' then some v else lookupKey rest k') = (if kv.1 = k' then some kv.2 else lookupKey rest k')
      rw [if_neg (Ne.symm hne), if_neg (fun hc => hne (Eq.symm (h ▸ hc)))]
    · rw [if_neg h]
      show (if kv.1 = k' then some kv.2 else lookupKey (setKey rest k v) k') = (if kv.1 = k' then some kv.2 else lookupKey rest k')
      by_cases hkk : kv.1 = k'
      · rw [if_pos hkk, if_pos hkk]
      · rw [if_neg hkk, if_neg hkk]
        exact ih

theorem hasKey_false_of_not_mem {o : ContactMap} {k : String}
    (h : k ∉ o.map Prod.fst) : hasKey o k = false := by
  induction o with
  | nil => rfl
  | cons kv o' ih =>
    simp only [List.map_cons, List.mem_cons] at h
    push_neg at h
    show ((kv.1 == k) || hasKey o' k) = false
    rw [beq_eq_false_iff_ne.mpr (Ne.symm h.1), ih h.2]
    simp

theorem lookup_updateMap_not_mem {o : ContactMap} {k : String} (h : hasKey o k = false) :
    ∀ (m : ContactMap), lookupKey (updateMap m o) k = lookupKey m k := by
  induction o with
  | nil => intro m; rfl
  | cons kv o' ih =>
    intro m
    have hh : ((kv.1 == k) || hasKey o' k) = false := h
    simp only [Bool.or_eq_false_iff] at hh
    have step : updateMap m (kv :: o') = updateMap (setKey m kv.1 kv.2) o' := rfl
    rw [step, ih hh.2 (setKey m kv.1 kv.2)]
    exact lookup_setKey_ne m kv.2 (fun hc => (beq_eq_false_iff_ne.mp hh.1) (Eq.symm hc))

theorem lookup_updateMap_mem {o : ContactMap} (ho : nodupKeys o) :
    ∀ {k v : String}, lookupKey o k = some v →
      ∀ (m : ContactMap), lookupKey (updateMap m o) k = some v := by
  induction o with
  | nil => intro k v h; simp [lookupKey] at h
  | cons kv o' ih =>
    intro k v h m
    simp only [nodupKeys, List.map_cons, List.nodup_cons] at ho
    have step : updateMap m (kv :: o') = updateMap (setKey m kv.1 kv.2) o' := rfl
    rw [step]
    by_cases hk : kv.1 = k
    · have hv : v = kv.2 := by
        have hh : (if kv.1 = k then some kv.2 else lookupKey o' k) = some v := h
        rw [if_pos hk] at hh
        exact (Option.some_inj.mp hh).symm
      subst hv
      have hnk : hasKey o' k = false := hasKey_false_of_not_mem (hk ▸ ho.1)
      rw [lookup_updateMap_not_mem hnk (setKey m kv.1 kv.2), hk]
      exact lookup_setKey_self m k kv.2
    · have hh : (if kv.1 = k then some kv.2 else lookupKey o' k) = some v := h
      rw [if_neg hk] at hh
      exact ih ho.2 hh (setKey m kv.1 kv.2)

theorem hasKey_false_of_lookup_none : ∀ (m : ContactMap) (k : String),
    lookupKey m k = none → hasKey m k = false := by
  intro m k
  induction m with
  | nil => intro _; rfl
  | cons kv rest ih =>
    intro h
    have hh : (if kv.1 = k then some kv.2 else lookupKey rest k) = none := h
    by_cases hk : kv.1 = k
    · rw [if_pos hk] at hh; exact absurd hh (by simp)
    · rw [if_neg hk] at hh
      show ((kv.1 == k) || hasKey rest k) = false
      rw [beq_eq_false_iff_ne.mpr hk, ih hh]
      rfl

theorem merge_with_ne {p q : Person} (h : p.name ≠ q.name) : merge_with p q = p := by
  simp [merge_with, h]

theorem merge_with_name (p q : Person) : (merge_with p q).name = p.name := by
  by_cases h : p.name = q.name
  · simp [merge_with, h]
  · simp [merge_with, h]

theorem truthyMap_false_getD {c : Option ContactMap} (h : truthyMap c = false) :
    c.getD [] = [] := by
  cases c with
  | none => rfl
  | some m =>
    cases m with
    | nil => rfl
    | cons a l => simp [truthyMap] at h

theorem merge_with_contact_truthy {p q : Person} (h : p.name = q.name)
    (ht : truthyMap q.contact_info = true) :
    (merge_with p q).contact_info =
      some (updateMap (p.contact_info.getD []) (q.contact_info.getD [])) := by
  by_cases hp : truthyMap p.contact_info = true
  · simp [merge_with, h, ht, hp]
  · rw [Bool.not_eq_true] at hp
    simp [merge_with, h, ht, hp, truthyMap_false_getD hp]

theorem merge_with_contact_falsy {p q : Person} (ht : truthyMap q.contact_info = false) :
    (merge_with p q).contact_info = p.contact_info := by
  by_cases h : p.name = q.name
  · simp [merge_with, h, ht]
  · simp [merge_with, h]

theorem merge_hasKey {p q : Person} (h : p.name = q.name) (k : String) :
    hasKey ((merge_with p q).contact_info.getD []) k =
      (hasKey (p.contact_info.getD []) k || hasKey (q.contact_info.getD []) k) := by
  by_cases ht : truthyMap q.contact_info = true
  · rw [merge_with_contact_truthy h ht]
    exact hasKey_updateMap (q.contact_info.getD []) (p.contact_info.getD []) k
  · rw [Bool.not_eq_true] at ht
    rw [merge_with_contact_falsy ht, truthyMap_false_getD ht]
    simp [hasKey]

theorem exec_board_disjoint : ∀ r, r ∈ EXECUTIVE_ROLES → r ∈ BOARD_ROLES → False := by
  intro r h1 h2
  simp only [EXECUTIVE_ROLES, List.mem_cons, List.not_mem_nil, or_false] at h1
  rcases h1 with rfl | rfl | rfl | rfl | rfl | rfl <;> revert h2 <;> decide

theorem merge_with_role_exec_self {p q : Person} (h : p.name = q.name)
    (he : p.role ∈ EXECUTIVE_ROLES) (hb : q.role ∈ BOARD_ROLES) :
    (merge_with p q).role = p.role := by
  have hne : p.role ≠ q.role := fun hc => exec_board_disjoint p.role he (hc ▸ hb)
  simp [merge_with, h, hne, he, hb]

theorem merge_with_role_exec_other {p q : Person} (h : p.name = q.name)
    (hb : p.role ∈ BOARD_ROLES) (he : q.role ∈ EXECUTIVE_ROLES) :
    (merge_with p q).role = q.role := by
  have hne : p.role ≠ q.role := fun hc => exec_board_disjoint q.role he (hc ▸ hb)
  have hnotfirst : ¬(p.role ∈ EXECUTIVE_ROLES ∧ q.role ∈ BOARD_ROLES) := by
    rintro ⟨h1, _⟩
    exact exec_board_disjoint p.role h1 hb
  simp [merge_with, h, hne, hnotfirst, he, hb]

theorem dedup_pair_eq {p q : Person} (h : p.name = q.name) :
    deduplicate_people [p, q] = [merge_with p q] := by
  simp [deduplicate_people, dedupStep, h]

theorem dedup_pair_ne {p q : Person} (h : p.name ≠ q.name) :
    deduplicate_people [p, q] = [p, q] := by
  simp [deduplicate_people, dedupStep, h]

theorem catStep_sub1 (b1 b2 : Bool) (st : List Person × List Person) (q : Person) :
    st.1 ⊆ (catStep b1 b2 st q).1 := by
  simp only [catStep]
  split_ifs <;>
    first
      | exact fun a h => h
      | exact List.subset_append_left _ _

theorem catStep_sub2 (b1 b2 : Bool) (st : List Person × List Person) (q : Person) :
    st.2 ⊆ (catStep b1 b2 st q).2 := by
  simp only [catStep]
  split_ifs <;>
    first
      | exact fun a h => h
      | exact List.subset_append_left _ _
      | exact List.Subset.trans (List.subset_append_left _ _) (List.subset_append_left _ _)

theorem cat_foldl_mono (b1 b2 : Bool) :
    ∀ (people : List Person) (st : List Person × List Person),
      st.1 ⊆ (people.foldl (catStep b1 b2) st).1 ∧
      st.2 ⊆ (people.foldl (catStep b1 b2) st).2 := by
  intro people
  induction people with
  | nil => exact fun st => ⟨fun a h => h, fun a h => h⟩
  | cons q tl ih =>
    intro st
    have h2 := ih (catStep b1 b2 st q)
    rw [List.foldl_cons]
    exact ⟨List.Subset.trans (catStep_sub1 b1 b2 st q) h2.1,
      List.Subset.trans (catStep_sub2 b1 b2 st q) h2.2⟩

theorem catStep_places (b1 b2 : Bool) (st : List Person × List Person) (p : Person)
    (hv : is_valid_person p = true)
    (hc : (b1 = true ∧ b2 = false) ∨ (b2 = true ∧ b1 = false) ∨
          p.role ∈ EXECUTIVE_ROLES ∨ p.role ∈ BOARD_ROLES) :
    p ∈ (catStep b1 b2 st p).1 ∨ p ∈ (catStep b1 b2 st p).2 := by
  unfold catStep
  rw [hv]
  cases b1 with
  | true =>
    cases b2 with
    | false =>
      left
      simp
    | true =>
      rcases hc with ⟨_, hc2⟩ | ⟨_, hc2⟩ | he | hb
      · exact absurd hc2 (by simp)
      · exact absurd hc2 (by simp)
      · left
        simp [he]
      · right
        simp only [Bool.not_true, Bool.and_false]
        simp
        rw [if_pos hb]
        split
        · split <;> simp
        · simp
  | false =>
    cases b2 with
    | true =>
      right
      simp
    | false =>
      rcases hc with ⟨hc1, _⟩ | ⟨hc1, _⟩ | he | hb
      · exact absurd hc1 (by simp)
      · exact absurd hc1 (by simp)
      · left
        simp [he]
      · right
        simp only [Bool.not_false, Bool.and_true, Bool.false_and]
        simp
        rw [if_pos hb]
        split
        · split <;> simp
        · simp

theorem cat_foldl_places (b1 b2 : Bool) :
    ∀ (people : List Person) (st : List Person × List Person) (p : Person),
      p ∈ people → is_valid_person p = true →
      ((b1 = true ∧ b2 = false) ∨ (b2 = true ∧ b1 = false) ∨
       p.role ∈ EXECUTIVE_ROLES ∨ p.role ∈ BOARD_ROLES) →
      p ∈ (people.foldl (catStep b1 b2) st).1 ∨
      p ∈ (people.foldl (catStep b1 b2) st).2 := by
  intro people
  induction people with
  | nil => intro st p hp; exact absurd hp (List.not_mem_nil p)
  | cons q tl ih =>
    intro st p hp hv hc
    rw [List.foldl_cons]
    rcases List.mem_cons.mp hp with rfl | htl
    · have h1 := catStep_places b1 b2 st p hv hc
      have h2 := cat_foldl_mono b1 b2 tl (catStep b1 b2 st p)
      rcases h1 with h | h
      · exact Or.inl (h2.1 h)
      · exact Or.inr (h2.2 h)
    · exact ih (catStep b1 b2 st q) p htl hv hc

theorem msp_pair (p1 p2 : Person) (hrole : p1.role = p2.role)
    (hsub : (subChars (stripStr (lowerStr p1.name)).data (stripStr (lowerStr p2.name)).data ||
             subChars (stripStr (lowerStr p2.name)).data (stripStr (lowerStr p1.name)).data) = true) :
    merge_similar_people [p1, p2] = [p1] := by
  have hrange : List.range (([p1, p2] : List Person).length) = [0, 1] := by
    show List.range 2 = [0, 1]
    decide
  have hrange' : List.range' (0 + 1) (([p1, p2] : List Person).length - (0 + 1)) = [1] := by
    show List.range' 1 1 = [1]
    decide
  by_cases hlen : (stripStr (lowerStr p1.name)).length < (stripStr (lowerStr p2.name)).length
  · have hne : p1.name ≠ p2.name := by
      intro he
      rw [he] at hlen
      exact lt_irrefl _ hlen
    have hinner : msp_inner [p1, p2] [] 0 = ([p1, p2], [1]) := by
      unfold msp_inner
      rw [hrange']
      simp only [List.foldl_cons, List.foldl_nil, List.getD_cons_zero, List.getD_cons_succ]
      rw [if_pos hrole]
      rw [if_pos hsub, if_pos hlen]
      rw [merge_with_ne hne]
      simp
    unfold merge_similar_people
    rw [hrange]
    simp only [List.foldl_cons, List.foldl_nil]
    rw [if_neg (by decide : ¬(([] : List Nat).contains 0 = true))]
    simp only [hinner]
    rw [if_pos (by decide : (([1] : List Nat).contains 1 = true))]
    simp
  · have hinner : msp_inner [p1, p2] [] 0 = ([p1, merge_with p2 p1], [1]) := by
      unfold msp_inner
      rw [hrange']
      simp only [List.foldl_cons, List.foldl_nil, List.getD_cons_zero, List.getD_cons_succ]
      rw [if_pos hrole]
      rw [if_pos hsub, if_neg hlen]
      simp
    unfold merge_similar_people
    rw [hrange]
    simp only [List.foldl_cons, List.foldl_nil]
    rw [if_neg (by decide : ¬(([] : List Nat).contains 0 = true))]
    simp only [hinner]
    rw [if_pos (by decide : (([1] : List Nat).contains 1 = true))]
    simp

theorem find_eq_of_agree {α : Type} (p q : α → Bool) :
    ∀ (l : List α), (∀ x ∈ l, p x = q x) → l.find? p = l.find? q := by
  intro l h
  induction l with
  | nil => rfl
  | cons a tl ih =>
    have ha := h a (by simp)
    by_cases hq : q a = true
    · rw [List.find?_cons_of_pos _ (by rw [ha, hq]), List.find?_cons_of_pos _ hq]
    · rw [List.find?_cons_of_neg _ (by rw [ha]; exact hq), List.find?_cons_of_neg _ hq]
      exact ih (fun x hx => h x (by simp [hx]))

theorem find_agree_drop (s : Nat) (m : RoleMatch) (tl : List RoleMatch)
    (hex : ∃ m2 ∈ tl, absDist m2.start s < absDist m.start s) :
    tl.find? (fun x => (m :: tl).all (fun m2 => decide (absDist x.start s ≤ absDist m2.start s))) =
    tl.find? (fun x => tl.all (fun m2 => decide (absDist x.start s ≤ absDist m2.start s))) := by
  apply find_eq_of_agree
  intro x hx
  simp only [List.all_cons]
  cases hax : tl.all (fun m2 => decide (absDist x.start s ≤ absDist m2.start s)) with
  | false => simp
  | true =>
    obtain ⟨m2, hm2, hlt2⟩ := hex
    have hx2 : absDist x.start s ≤ absDist m2.start s := by
      have h := List.all_eq_true.mp hax m2 hm2
      simpa using h
    have hxm : absDist x.start s ≤ absDist m.start s := le_of_lt (lt_of_le_of_lt hx2 hlt2)
    simp [hxm]

theorem roleFold_some (s : Nat) :
    ∀ (ms : List RoleMatch) (bd : Nat) (r : String),
      ms.foldl (roleStep s) (some (bd, r)) =
        if ms.all (fun m2 => decide (bd ≤ absDist m2.start s)) then some (bd, r)
        else ((ms.find? (fun m =>
            ms.all (fun m2 => decide (absDist m.start s ≤ absDist m2.start s)))).map
              (fun m => (absDist m.start s, stripStr m.text))) := by
  intro ms
  induction ms with
  | nil => intro bd r; simp
  | cons m tl ih =>
    intro bd r
    rw [List.foldl_cons]
    by_cases hlt : absDist m.start s < bd
    · have hstep : roleStep s (some (bd, r)) m = some (absDist m.start s, stripStr m.text) := by
        simp [roleStep, hlt]
      rw [hstep, ih (absDist m.start s) (stripStr m.text)]
      have hc1 : ((m :: tl).all (fun m2 => decide (bd ≤ absDist m2.start s))) = false := by
        simp only [List.all_cons, Bool.and_eq_false_iff]
        left
        simpa using Nat.not_le.mpr hlt
      rw [hc1]
      simp only [Bool.false_eq_true, if_false]
      cases htl : tl.all (fun m2 => decide (absDist m.start s ≤ absDist m2.start s)) with
      | true =>
        rw [if_pos rfl]
        have hPm : ((m :: tl).all
            (fun m2 => decide (absDist m.start s ≤ absDist m2.start s))) = true := by
          simp only [List.all_cons, htl, Bool.and_true]
          simp
        rw [@List.find?_cons_of_pos _ (fun x => (m :: tl).all fun m2 => decide (absDist x.start s ≤ absDist m2.start s)) m tl hPm]
        rfl
      | false =>
        rw [if_neg (by simp)]
        have hPm : ((m :: tl).all
            (fun m2 => decide (absDist m.start s ≤ absDist m2.start s))) = false := by
          simp only [List.all_cons, htl, Bool.and_false]
        rw [@List.find?_cons_of_neg _ (fun x => (m :: tl).all fun m2 => decide (absDist x.start s ≤ absDist m2.start s)) m tl (by simp [hPm])]
        obtain ⟨m2, hm2, hm2f⟩ := List.all_eq_false.mp htl
        have hlt2 : absDist m2.start s < absDist m.start s := by
          simpa using hm2f
        rw [find_agree_drop s m tl ⟨m2, hm2, hlt2⟩]
    · have hstep : roleStep s (some (bd, r)) m = some (bd, r) := by
        simp [roleStep, hlt]
      rw [hstep, ih bd r]
      have hble : bd ≤ absDist m.start s := Nat.not_lt.mp hlt
      cases htl : tl.all (fun m2 => decide (bd ≤ absDist m2.start s)) with
      | true =>
        rw [if_pos rfl]
        have hc1 : ((m :: tl).all (fun m2 => decide (bd ≤ absDist m2.start s))) = true := by
          simp only [List.all_cons, htl, Bool.and_true]
          simp [hble]
        rw [hc1]
        simp
      | false =>
        rw [if_neg (by simp)]
        have hc1 : ((m :: tl).all (fun m2 => decide (bd ≤ absDist m2.start s))) = false := by
          simp only [List.all_cons, htl, Bool.and_false]
        rw [hc1]
        simp only [Bool.false_eq_true, if_false]
        obtain ⟨m2, hm2, hm2f⟩ := List.all_eq_false.mp htl
        have hlt2 : absDist m2.start s < bd := by simpa using hm2f
        have hltm : absDist m2.start s < absDist m.start s := lt_of_lt_of_le hlt2 hble
        have hPm : ((m :: tl).all
            (fun m2 => decide (absDist m.start s ≤ absDist m2.start s))) = false := by
          simp only [List.all_cons, Bool.and_eq_false_iff]
          right
          exact List.all_eq_false.mpr ⟨m2, hm2, by simpa using Nat.not_le.mpr hltm⟩
        rw [@List.find?_cons_of_neg _ (fun x => (m :: tl).all fun m2 => decide (absDist x.start s ≤ absDist m2.start s)) m tl (by simp [hPm])]
        rw [find_agree_drop s m tl ⟨m2, hm2, hltm⟩]

theorem pickRole_spec (ms : List RoleMatch) (s : Nat) :
    pickRole ms s =
      (ms.find? (fun m =>
        ms.all (fun m2 => decide (absDist m.start s ≤ absDist m2.start s)))).map
        (fun m => stripStr m.text) := by
  cases ms with
  | nil => rfl
  | cons m tl =>
    show (List.foldl (roleStep s) (roleStep s none m) tl).map (fun br => br.2) = _
    have hstep : roleStep s none m = some (absDist m.start s, stripStr m.text) := rfl
    rw [hstep, roleFold_some s tl (absDist m.start s) (stripStr m.text)]
    cases htl : tl.all (fun m2 => decide (absDist m.start s ≤ absDist m2.start s)) with
    | true =>
      rw [if_pos rfl]
      have hPm : ((m :: tl).all
          (fun m2 => decide (absDist m.start s ≤ absDist m2.start s))) = true := by
        simp only [List.all_cons, htl, Bool.and_true]
        simp
      rw [@List.find?_cons_of_pos _ (fun x => (m :: tl).all fun m2 => decide (absDist x.start s ≤ absDist m2.start s)) m tl hPm]
      rfl
    | false =>
      rw [if_neg (by simp)]
      have hPm : ((m :: tl).all
          (fun m2 => decide (absDist m.start s ≤ absDist m2.start s))) = false := by
        simp only [List.all_cons, htl, Bool.and_false]
      rw [@List.find?_cons_of_neg _ (fun x => (m :: tl).all fun m2 => decide (absDist x.start s ≤ absDist m2.start s)) m tl (by simp [hPm])]
      obtain ⟨m2, hm2, hm2f⟩ := List.all_eq_false.mp htl
      have hlt2 : absDist m2.start s < absDist m.start s := by simpa using hm2f
      rw [find_agree_drop s m tl ⟨m2, hm2, hlt2⟩]
      rw [Option.map_map]
      rfl

theorem extract_empty_roleMatches : ∀ (ents : List Ent) (em pm : Option String),
    extract_people_from_section ents [] em pm = [] := by
  intro ents em pm
  show ents.foldl _ [] = []
  have h : ∀ (acc : List Person),
      ents.foldl (fun people ent =>
        if ent.label = "PERSON" then
          match pickRole [] ent.start_char with
          | some role =>
            if role ≠ "" then
              people ++ [standardize_role
                (Person.mk (stripStr ent.text) role (buildContact em pm))]
            else people
          | none => people
        else people) acc = acc := by
    induction ents with
    | nil => intro acc; rfl
    | cons e tl ih =>
      intro acc
      rw [List.foldl_cons]
      have hstep : (if e.label = "PERSON" then
          match pickRole [] e.start_char with
          | some role =>
            if role ≠ "" then
              acc ++ [standardize_role
                (Person.mk (stripStr e.text) role (buildContact em pm))]
            else acc
          | none => acc
        else acc) = acc := by
        split
        · rfl
        · rfl
      rw [hstep]
      exact ih acc
  exact h []

theorem startsWith_map (f : Char → Char) :
    ∀ (s b : List Char), startsWithChars s b = true →
      startsWithChars (s.map f) (b.map f) = true := by
  intro s
  induction s with
  | nil => intro b _; rfl
  | cons a as ih =>
    intro b h
    cases b with
    | nil => exact absurd h (by simp [startsWithChars])
    | cons c cs =>
      have hh : (a == c && startsWithChars as cs) = true := h
      simp only [Bool.and_eq_true] at hh
      have hac : a = c := by simpa using hh.1
      show ((f a == f c) && startsWithChars (as.map f) (cs.map f)) = true
      rw [hac]
      simp [ih cs hh.2]

theorem subChars_map (f : Char → Char) :
    ∀ (b s : List Char), subChars s b = true → subChars (s.map f) (b.map f) = true := by
  intro b
  induction b with
  | nil =>
    intro s h
    cases s with
    | nil => exact h
    | cons a as => exact absurd h (by simp [subChars, List.isEmpty])
  | cons c cs ih =>
    intro s h
    have hh : (startsWithChars s (c :: cs) || subChars s cs) = true := h
    show (startsWithChars (s.map f) (f c :: cs.map f) || subChars (s.map f) (cs.map f)) = true
    rcases (Bool.or_eq_true _ _).mp hh with h1 | h2
    · have h3 := startsWith_map f s (c :: cs) h1
      simp only [List.map_cons] at h3
      simp [h3]
    · simp [ih s h2]

theorem press_release_excluded (url : String)
    (h : containsSub url ("press-release") = true) : is_excluded_url url = true := by
  have hl := subChars_map Char.toLower url.data (String.data ("press-release")) h
  have heq : (String.data ("press-release")).map Char.toLower = String.data ("press-release") := by
    decide
  rw [heq] at hl
  simp only [is_excluded_url]
  refine List.any_eq_true.mpr ⟨("press-release"), by simp, ?_⟩
  exact hl


/-! ### Claims -/

/-- C1 (corrected): when `merge_similar_people` meets a pair of records
with identical role whose case/whitespace-folded names are
substring-related, it outputs a single record — but that record is always
the first of the pair, completely unchanged: the first record's name
(which may be the shorter one) and contact_info are kept, and the second
record's contact_info is discarded, because the intended `merge_with`
call is a no-op on raw-unequal names and any merge into the second
record is dropped with it. -/
theorem C1_similarity_merge_keeps_first (p1 p2 : Person)
    (hrole : p1.role = p2.role)
    (hsub : (subChars (stripStr (lowerStr p1.name)).data (stripStr (lowerStr p2.name)).data ||
             subChars (stripStr (lowerStr p2.name)).data (stripStr (lowerStr p1.name)).data) = true) :
    merge_similar_people [p1, p2] = [p1] :=
  msp_pair p1 p2 hrole hsub

/-- C1 counterexample: for the same-role pair "Smith" / "John Smith" the
Similarity Merger keeps the shorter, first name "Smith" and loses the
second record's phone contact, contradicting the claim that the longer
name is retained with union-merged contact info. -/
theorem C1_counterexample :
    merge_similar_people
        [Person.mk ("Smith") ("Director") (some [("email", "s@x.com")]),
         Person.mk ("John Smith") ("Director") (some [("phone", "555-123-4567")])] =
      [Person.mk ("Smith") ("Director") (some [("email", "s@x.com")])] ∧
    ¬((merge_similar_people
        [Person.mk ("Smith") ("Director") (some [("email", "s@x.com")]),
         Person.mk ("John Smith") ("Director") (some [("phone", "555-123-4567")])]).map
          (fun p => p.name) = ["John Smith"]) := by
  decide

/-- C1 witness: the amended pair law evaluated on "Elouafi" /
"Mustapha Elouafi". -/
theorem C1_similarity_merge_keeps_first_witness :
    merge_similar_people
        [Person.mk ("Elouafi") ("Director") none,
         Person.mk ("Mustapha Elouafi") ("Director") (some [("email", "m@x.com")])] =
      [Person.mk ("Elouafi") ("Director") none] :=
  C1_similarity_merge_keeps_first _ _ rfl (by decide)

/-- C2 (corrected): a validated person whose role is "Chief Executive
Officer" is placed in `board_members` as well as `executives` only when
the URL is neither an executive page nor a board page, or is both; on an
executive-only page the CEO lands in `executives` only, and on a
board-only page in `board_members` only. -/
theorem C2_ceo_promotion_page_dependent (p : Person) (url : String)
    (hv : is_valid_person p = true) (hr : p.role = "Chief Executive Officer") :
    categorize_people [p] url =
      (if is_executive_page url && !(is_board_page url) then ([p], [])
       else if is_board_page url && !(is_executive_page url) then ([], [p])
       else ([p], [p])) := by
  have hE : ("Chief Executive Officer" : String) ∈ EXECUTIVE_ROLES := by decide
  have hB : ("Chief Executive Officer" : String) ∉ BOARD_ROLES := by decide
  show catStep (is_executive_page url) (is_board_page url) ([], []) p = _
  unfold catStep
  rw [hv]
  cases is_executive_page url <;> cases is_board_page url <;>
    simp [hr, hE, hB, personEq]

/-- C2 counterexample: on the executive-only page
"https://x.com/management" a validated CEO is not added to
`board_members`, contradicting the claimed promotion on every URL. -/
theorem C2_counterexample :
    is_valid_person (Person.mk ("Jane Doe") ("Chief Executive Officer") none) = true ∧
    is_executive_page ("https://x.com/management") = true ∧
    (categorize_people [Person.mk ("Jane Doe") ("Chief Executive Officer") none]
        ("https://x.com/management")).2 = [] := by decide

/-- C2 witness: the amended categorization law on a page that is both an
executive and a board page. -/
theorem C2_ceo_promotion_page_dependent_witness :
    categorize_people [Person.mk ("Jane Doe") ("Chief Executive Officer") none]
        ("https://x.com/board-and-management") =
      (if is_executive_page ("https://x.com/board-and-management") &&
          !(is_board_page ("https://x.com/board-and-management")) then
        ([Person.mk ("Jane Doe") ("Chief Executive Officer") none], [])
       else if is_board_page ("https://x.com/board-and-management") &&
          !(is_executive_page ("https://x.com/board-and-management")) then
        ([], [Person.mk ("Jane Doe") ("Chief Executive Officer") none])
       else ([Person.mk ("Jane Doe") ("Chief Executive Officer") none],
             [Person.mk ("Jane Doe") ("Chief Executive Officer") none])) :=
  C2_ceo_promotion_page_dependent _ _ (by decide) rfl

/-- C3 (corrected): categorization keeps a validated person only when the
page context is unambiguous or the person's role is canonical: every
validated person lands in `executives` or `board_members` whenever the
URL is an executive-only page, a board-only page, or the role belongs to
EXECUTIVE_ROLES or BOARD_ROLES; on an ambiguous page a validated person
whose role is outside both sets is dropped. -/
theorem C3_validated_person_placed (url : String) (people : List Person) (p : Person)
    (hp : p ∈ people) (hv : is_valid_person p = true)
    (hc : (is_executive_page url = true ∧ is_board_page url = false) ∨
          (is_board_page url = true ∧ is_executive_page url = false) ∨
          p.role ∈ EXECUTIVE_ROLES ∨ p.role ∈ BOARD_ROLES) :
    p ∈ (categorize_people people url).1 ∨ p ∈ (categorize_people people url).2 :=
  cat_foldl_places (is_executive_page url) (is_board_page url) people ([], []) p hp hv hc

/-- C3 counterexample: "Bob Jones" with validated role "Investor
Relations" (outside both canonical role sets) on the non-excluded,
ambiguous URL "https://x.com/about" is dropped from both output lists. -/
theorem C3_counterexample :
    is_valid_person (Person.mk ("Bob Jones") ("Investor Relations") none) = true ∧
    is_excluded_url ("https://x.com/about") = false ∧
    categorize_people [Person.mk ("Bob Jones") ("Investor Relations") none]
        ("https://x.com/about") = ([], []) := by decide

/-- C3 witness: a validated CEO on an ambiguous page is placed in an
output list. -/
theorem C3_validated_person_placed_witness :
    Person.mk ("Jane Doe") ("Chief Executive Officer") none ∈
      (categorize_people [Person.mk ("Jane Doe") ("Chief Executive Officer") none]
        ("https://x.com/about")).1 ∨
    Person.mk ("Jane Doe") ("Chief Executive Officer") none ∈
      (categorize_people [Person.mk ("Jane Doe") ("Chief Executive Officer") none]
        ("https://x.com/about")).2 :=
  C3_validated_person_placed _ _ _ (by simp) (by decide)
    (Or.inr (Or.inr (Or.inl (by decide))))

/-- C4 (corrected): when the Deduplicator merges two same-name, same-role
records, the contact maps are combined with `dict.update` semantics, so
for a key present in both maps the incoming record's value overwrites the
existing one; the existing record's value survives only for keys the
incoming map lacks. -/
theorem C4_incoming_contact_wins (p q : Person) (k : String)
    (hname : p.name = q.name) (_hrole : p.role = q.role)
    (ht : truthyMap q.contact_info = true)
    (hnd : nodupKeys (q.contact_info.getD [])) :
    deduplicate_people [p, q] = [merge_with p q] ∧
    lookupKey ((merge_with p q).contact_info.getD []) k =
      (match lookupKey (q.contact_info.getD []) k with
       | some v => some v
       | none => lookupKey (p.contact_info.getD []) k) := by
  refine ⟨dedup_pair_eq hname, ?_⟩
  rw [merge_with_contact_truthy hname ht]
  show lookupKey (updateMap (p.contact_info.getD []) (q.contact_info.getD [])) k = _
  cases hql : lookupKey (q.contact_info.getD []) k with
  | some v => exact lookup_updateMap_mem hnd hql _
  | none => exact lookup_updateMap_not_mem (hasKey_false_of_lookup_none _ _ hql) _

/-- C4 counterexample: deduplicating two "Jane"/"Director" records whose
contact maps both bind "email" keeps the incoming value "new@x.com", not
the existing "old@x.com" the claim predicts. -/
theorem C4_counterexample :
    deduplicate_people
        [Person.mk ("Jane") ("Director") (some [("email", "old@x.com")]),
         Person.mk ("Jane") ("Director") (some [("email", "new@x.com")])] =
      [Person.mk ("Jane") ("Director") (some [("email", "new@x.com")])] ∧
    lookupKey (((deduplicate_people
        [Person.mk ("Jane") ("Director") (some [("email", "old@x.com")]),
         Person.mk ("Jane") ("Director") (some [("email", "new@x.com")])]).getD 0
          defaultPerson).contact_info.getD []) ("email") ≠ some ("old@x.com") := by decide

/-- C4 witness: the amended update law evaluated on two "Jo" records
sharing the "email" key. -/
theorem C4_incoming_contact_wins_witness :
    deduplicate_people
        [Person.mk ("Jo") ("Director") (some [("email", "old@x.com"), ("fax", "9")]),
         Person.mk ("Jo") ("Director") (some [("email", "new@x.com")])] =
      [merge_with
        (Person.mk ("Jo") ("Director") (some [("email", "old@x.com"), ("fax", "9")]))
        (Person.mk ("Jo") ("Director") (some [("email", "new@x.com")]))] ∧
    lookupKey ((merge_with
        (Person.mk ("Jo") ("Director") (some [("email", "old@x.com"), ("fax", "9")]))
        (Person.mk ("Jo") ("Director") (some [("email", "new@x.com")]))).contact_info.getD [])
        ("email") =
      (match lookupKey ((some [("email", "new@x.com")] : Option ContactMap).getD []) ("email") with
       | some v => some v
       | none => lookupKey ((some [("email", "old@x.com"), ("fax", "9")] :
           Option ContactMap).getD []) ("email")) :=
  C4_incoming_contact_wins _ _ ("email") rfl rfl (by decide) (by simp [nodupKeys])

/-- C5 (corrected): for two same-name Person records, `merge_with`
produces a contact map whose key set is exactly the union of both sides'
key sets (hence disjoint keys give the full union, and no key is
removed); for records with different names the receiver keeps all its
keys unchanged, but the incoming record's keys are not added — the merge
is a no-op unless the names are exactly equal. -/
theorem C5_contact_union_same_name :
    (∀ (p q : Person) (k : String), p.name = q.name →
        hasKey ((merge_with p q).contact_info.getD []) k =
          (hasKey (p.contact_info.getD []) k || hasKey (q.contact_info.getD []) k)) ∧
    (∀ (p q : Person) (k : String), hasKey (p.contact_info.getD []) k = true →
        hasKey ((merge_with p q).contact_info.getD []) k = true) := by
  constructor
  · intro p q k h
    exact merge_hasKey h k
  · intro p q k hk
    by_cases h : p.name = q.name
    · rw [merge_hasKey h k, hk]
      rfl
    · rw [merge_with_ne h]
      exact hk

/-- C5 counterexample: merging records with different names ("A" vs "B")
is a no-op, so the incoming record's key "phone" is absent from the
result even though it was present on one side before the merge. -/
theorem C5_counterexample :
    merge_with (Person.mk ("A") ("X") (some [("email", "a@x.com")]))
        (Person.mk ("B") ("X") (some [("phone", "1")])) =
      Person.mk ("A") ("X") (some [("email", "a@x.com")]) ∧
    hasKey ((merge_with (Person.mk ("A") ("X") (some [("email", "a@x.com")]))
        (Person.mk ("B") ("X") (some [("phone", "1")]))).contact_info.getD [])
      ("phone") = false := by
  decide

/-- C5 witness: the union law evaluated on two same-name records with
disjoint contact keys. -/
theorem C5_contact_union_same_name_witness :
    hasKey ((merge_with (Person.mk ("A") ("X") (some [("email", "a@x.com")]))
        (Person.mk ("A") ("Y") (some [("phone", "1")]))).contact_info.getD []) ("phone") =
      (hasKey ((some [("email", "a@x.com")] : Option ContactMap).getD []) ("phone") ||
       hasKey ((some [("phone", "1")] : Option ContactMap).getD []) ("phone")) :=
  C5_contact_union_same_name.1 _ _ _ rfl

/-- C6 (confirmed): merging a same-name executive-role record with a
board-role record through the Deduplicator yields the executive role in
both insertion orders, and the merged record's contact keys are the
union of both sides' keys. -/
theorem C6_exec_role_precedence (p q : Person)
    (hname : p.name = q.name)
    (he : p.role ∈ EXECUTIVE_ROLES) (hb : q.role ∈ BOARD_ROLES) :
    deduplicate_people [p, q] = [merge_with p q] ∧
    deduplicate_people [q, p] = [merge_with q p] ∧
    (merge_with p q).role = p.role ∧
    (merge_with q p).role = p.role ∧
    (∀ k, hasKey ((merge_with p q).contact_info.getD []) k =
        (hasKey (p.contact_info.getD []) k || hasKey (q.contact_info.getD []) k)) ∧
    (∀ k, hasKey ((merge_with q p).contact_info.getD []) k =
        (hasKey (q.contact_info.getD []) k || hasKey (p.contact_info.getD []) k)) :=
  ⟨dedup_pair_eq hname, dedup_pair_eq hname.symm,
    merge_with_role_exec_self hname he hb,
    merge_with_role_exec_other hname.symm hb he,
    fun k => merge_hasKey hname k, fun k => merge_hasKey hname.symm k⟩

/-- C6 witness: the precedence law evaluated on a CEO record colliding
with a Director record of the same name. -/
theorem C6_exec_role_precedence_witness :
    deduplicate_people
        [Person.mk ("Jane") ("Chief Executive Officer") (some [("email", "j@x.com")]),
         Person.mk ("Jane") ("Director") (some [("phone", "5")])] =
      [merge_with
        (Person.mk ("Jane") ("Chief Executive Officer") (some [("email", "j@x.com")]))
        (Person.mk ("Jane") ("Director") (some [("phone", "5")]))] ∧
    (merge_with
        (Person.mk ("Jane") ("Chief Executive Officer") (some [("email", "j@x.com")]))
        (Person.mk ("Jane") ("Director") (some [("phone", "5")]))).role =
      ("Chief Executive Officer") ∧
    hasKey ((merge_with
        (Person.mk ("Jane") ("Chief Executive Officer") (some [("email", "j@x.com")]))
        (Person.mk ("Jane") ("Director") (some [("phone", "5")]))).contact_info.getD [])
        ("phone") =
      (hasKey ((some [("email", "j@x.com")] : Option ContactMap).getD []) ("phone") ||
       hasKey ((some [("phone", "5")] : Option ContactMap).getD []) ("phone")) := by
  have h := C6_exec_role_precedence
    (Person.mk ("Jane") ("Chief Executive Officer") (some [("email", "j@x.com")]))
    (Person.mk ("Jane") ("Director") (some [("phone", "5")]))
    rfl (by decide) (by decide)
  exact ⟨h.1, h.2.2.1, h.2.2.2.2.1 ("phone")⟩

/-- C7 (confirmed): for a detected name the Role Resolver returns exactly
the stripped text of the first role match (in pattern enumeration order)
whose start offset attains the minimal absolute distance to the entity
start offset — the comparison is strict, so the first-seen match wins
exact ties — and when the section has no role-pattern matches at all, no
candidate Person is emitted for any entity. -/
theorem C7_role_resolver_closest_first :
    (∀ (ms : List RoleMatch) (s : Nat),
        pickRole ms s =
          (ms.find? (fun m =>
            ms.all (fun m2 => decide (absDist m.start s ≤ absDist m2.start s)))).map
            (fun m => stripStr m.text)) ∧
    (∀ (ents : List Ent) (em pm : Option String),
        extract_people_from_section ents [] em pm = []) :=
  ⟨pickRole_spec, extract_empty_roleMatches⟩

/-- C8 (confirmed): any content whose URL contains the substring
"press-release" short-circuits through the exclusion gate: whatever the
body text, the structured fallback, and the external text capabilities
are, `process_content` returns empty executive and board rosters. -/
theorem C8_press_release_empty (o : TextOracle) (content : WebPageContent)
    (h : containsSub content.url ("press-release") = true) :
    (process_content o content).executives = [] ∧
    (process_content o content).board_members = [] := by
  have hex : is_excluded_url content.url = true := press_release_excluded content.url h
  unfold process_content
  rw [if_pos hex]
  exact ⟨rfl, rfl⟩

/-- A trivial instantiation of the external text capabilities, used only
to witness the exclusion gate. -/
def trivOracle : TextOracle :=
  TextOracle.mk (fun _ => []) (fun _ => false) (fun _ => []) (fun _ => [])
    (fun _ => none) (fun _ => none)

/-- C8 witness: the exclusion gate evaluated on a concrete press-release
URL with non-empty body text. -/
theorem C8_press_release_empty_witness :
    (process_content trivOracle
        (WebPageContent.mk ("https://x.com/press-release/2024") ("Jane Doe is the CEO.")
          none none ("f.json"))).executives = [] ∧
    (process_content trivOracle
        (WebPageContent.mk ("https://x.com/press-release/2024") ("Jane Doe is the CEO.")
          none none ("f.json"))).board_members = [] :=
  C8_press_release_empty _ _ (by decide)

/-- C9 (corrected): the Deduplicator groups candidate records by the
exact raw name string, not by the case/whitespace-folded name: records
with exactly equal names are merged into one, while names differing only
in letter case or surrounding whitespace are kept as separate records. -/
theorem C9_dedup_exact_name (p q : Person) :
    (p.name = q.name → deduplicate_people [p, q] = [merge_with p q]) ∧
    (p.name ≠ q.name → deduplicate_people [p, q] = [p, q]) :=
  ⟨fun h => dedup_pair_eq h, fun h => dedup_pair_ne h⟩

/-- C9 counterexample: "John Smith" and "john smith" differ only in case
(their folded names agree), yet the Deduplicator leaves them as two
separate records. -/
theorem C9_counterexample :
    stripStr (lowerStr ("John Smith")) = stripStr (lowerStr ("john smith")) ∧
    deduplicate_people
        [Person.mk ("John Smith") ("Director") none,
         Person.mk ("john smith") ("Director") none] =
      [Person.mk ("John Smith") ("Director") none,
       Person.mk ("john smith") ("Director") none] := by decide

/-- C9 witness: the exact-name law evaluated on a case-differing pair. -/
theorem C9_dedup_exact_name_witness :
    deduplicate_people
        [Person.mk ("Ann Lee") ("Director") none,
         Person.mk ("ann lee") ("Director") none] =
      [Person.mk ("Ann Lee") ("Director") none,
       Person.mk ("ann lee") ("Director") none] :=
  (C9_dedup_exact_name _ _).2 (by decide)

/-- C10 (confirmed): calling `merge_with` on records whose name fields
are not exactly equal strings leaves the receiving record entirely
unchanged: its name, role, and contact_info are all the same after the
call as before. -/
theorem C10_merge_frame_different_names (p q : Person) (h : p.name ≠ q.name) :
    merge_with p q = p :=
  merge_with_ne h

/-- C10 witness: the frame law evaluated on two unrelated records. -/
theorem C10_merge_frame_different_names_witness :
    merge_with (Person.mk ("Alice") ("Director") (some [("email", "a@x.com")]))
        (Person.mk ("Bob") ("Chairman") (some [("phone", "555")])) =
      Person.mk ("Alice") ("Director") (some [("email", "a@x.com")]) :=
  C10_merge_frame_different_names _ _ (by decide)

end OfficerPipeline
